import Mathlib

/-!
Verification of the stock-portfolio-tracker repository.

Shallow embedding of the valuation / price-refresh core:
* `calculateHoldingMetrics`, `calculatePortfolioTotals` from
  frontend/src/App.js (identical code in the localStorage variant);
* the unguarded inline metric computation of `createTableRow` from
  src/app.js (the legacy demo application);
* `addStock`, `deletePortfolio` store mutations from frontend/src/App.js
  and the localStorage variant;
* `fetchRealTimePrices` (symbol collection, price merge, failure path)
  and the interval scheduler, modelled as a fold over tick outcomes;
* the `/api/quotes` response mapping from backend/server.js, with a
  model of JavaScript `parseFloat` (exact rationals; binary-float
  rounding and overflow are not modelled, the `Infinity` literal is).

JavaScript numbers are modelled as exact rationals; the value `JNum`
adds NaN and the two infinities, which arise from division by zero and
from parsing, exactly where the source can produce them.
-/

/-- One holding record: symbol, shares, purchasePrice, purchaseDate,
currentPrice, as stored by the application. -/
structure Holding where
  symbol : String
  shares : ℚ
  purchasePrice : ℚ
  purchaseDate : String
  currentPrice : ℚ
deriving DecidableEq

/-- One portfolio: id, display name, ordered holdings list. -/
structure Portfolio where
  id : String
  name : String
  holdings : List Holding
deriving DecidableEq

/-- JavaScript numeric value: a finite rational, NaN, or a signed
infinity.  Finite arithmetic is done directly on `ℚ`; `JNum` is used
where the source can produce a non-finite value. -/
inductive JNum where
  | num : ℚ → JNum
  | nan : JNum
  | inf : JNum
  | ninf : JNum
deriving DecidableEq

/-- Whether a JavaScript numeric value is a finite number. -/
def JNum.isFinite : JNum → Bool
  | .num _ => true
  | _ => false

/-- JavaScript division on finite operands: `a / 0` is `Infinity`,
`-Infinity` or `NaN` depending on the sign of `a` (negative zero is not
modelled). -/
def jdiv (a b : ℚ) : JNum :=
  if b ≠ 0 then .num (a / b)
  else if 0 < a then .inf
  else if a < 0 then .ninf
  else .nan

/-- JavaScript multiplication of a numeric value by the constant 100,
as in `(... ) * 100`: infinities and NaN are absorbing. -/
def jmul100 : JNum → JNum
  | .num q => .num (q * 100)
  | .nan => .nan
  | .inf => .inf
  | .ninf => .ninf

/-- Result record of `calculateHoldingMetrics` (frontend/src/App.js,
lines 354-360). -/
structure HoldingMetrics where
  marketValue : ℚ
  totalGainLoss : ℚ
  gainLossPercent : ℚ
deriving DecidableEq

/-- `calculateHoldingMetrics(h)` from frontend/src/App.js lines 354-360
(the localStorage variant has the identical function): the percentage is
guarded by `totalCost > 0`. -/
def calculateHoldingMetrics (h : Holding) : HoldingMetrics :=
  let marketValue := h.shares * h.currentPrice
  let totalCost := h.shares * h.purchasePrice
  let totalGainLoss := marketValue - totalCost
  let gainLossPercent := if 0 < totalCost then totalGainLoss / totalCost * 100 else 0
  { marketValue := marketValue, totalGainLoss := totalGainLoss, gainLossPercent := gainLossPercent }

/-- Result record of the inline metric computation in `createTableRow`
(src/app.js, lines 253-257): the percentage there can be non-finite. -/
structure RowMetrics where
  marketValue : ℚ
  totalGainLoss : ℚ
  gainLossPercent : JNum
deriving DecidableEq

/-- Inline metrics of `createTableRow` from src/app.js lines 253-257
(same expressions in `createMobileCard`): the percentage
`(totalGainLoss / (shares * purchasePrice)) * 100` is computed without
any zero guard. -/
def createTableRowMetrics (h : Holding) : RowMetrics :=
  let marketValue := h.shares * h.currentPrice
  let totalGainLoss := marketValue - h.shares * h.purchasePrice
  let gainLossPercent := jmul100 (jdiv totalGainLoss (h.shares * h.purchasePrice))
  { marketValue := marketValue, totalGainLoss := totalGainLoss, gainLossPercent := gainLossPercent }

/-- Modelled from the spec: the zero-guarded percentage rule
`totalCost > 0 ? (gainLoss / totalCost) * 100 : 0` (spec section 4.1),
used to compare the source computations against the spec's words. -/
def specGainLossPercentRule (gainLoss totalCost : ℚ) : ℚ :=
  if 0 < totalCost then gainLoss / totalCost * 100 else 0

/-- Result record of `calculatePortfolioTotals`. -/
structure PortfolioTotals where
  totalValue : ℚ
  totalGainLoss : ℚ
  totalGainLossPercent : ℚ
deriving DecidableEq

/-- `calculatePortfolioTotals(p)` from the localStorage variant lines
518-528 (frontend/src/App.js lines 361-375 is the same accumulation over
the holdings reachable from `holdingIds`): one pass accumulates value and
cost, then the guarded percentage rule is applied to the sums. -/
def calculatePortfolioTotals (p : Portfolio) : PortfolioTotals :=
  let acc := p.holdings.foldl
    (fun acc h => (acc.1 + h.shares * h.currentPrice, acc.2 + h.shares * h.purchasePrice))
    ((0 : ℚ), (0 : ℚ))
  let totalGainLoss := acc.1 - acc.2
  { totalValue := acc.1
    totalGainLoss := totalGainLoss
    totalGainLossPercent := if 0 < acc.2 then totalGainLoss / acc.2 * 100 else 0 }

/-- Errors surfaced by the store mutations (the source reports them
through `showConfirmation` dialogs). -/
inductive StoreError where
  | validationError
  | duplicateSymbolError
deriving DecidableEq

/-- Character class of the symbol regex `[A-Z0-9]` from src/app.js
line 402. -/
def isSymbolChar (c : Char) : Bool :=
  ('A' ≤ c && c ≤ 'Z') || ('0' ≤ c && c ≤ '9')

/-- The symbol-format rule `/^[A-Z0-9]{1,6}$/` from src/app.js
line 402: 1-6 uppercase letters and digits. -/
def symbolFormatValid (s : String) : Bool :=
  decide (1 ≤ s.length) && decide (s.length ≤ 6) && s.toList.all isSymbolChar

/-- `addStock()` from frontend/src/App.js lines 240-272 (the
localStorage variant lines 397-428 has the same checks).  The
validation condition mirrors the JavaScript truthiness test
`!symbol || !shares || !purchasePrice || !purchaseDate || shares <= 0 || purchasePrice < 0`:
an empty string is falsy and a zero number is falsy.  The duplicate
check and the append with `currentPrice = purchasePrice` follow. -/
def addStock (p : Portfolio) (symbol : String) (shares purchasePrice : ℚ)
    (purchaseDate : String) : Except StoreError Portfolio :=
  if symbol = "" ∨ shares = 0 ∨ purchasePrice = 0 ∨ purchaseDate = "" ∨ shares ≤ 0 ∨ purchasePrice < 0 then
    .error .validationError
  else if p.holdings.any (fun h => h.symbol == symbol) then
    .error .duplicateSymbolError
  else
    .ok { p with holdings := p.holdings ++
      [{ symbol := symbol, shares := shares, purchasePrice := purchasePrice,
         purchaseDate := purchaseDate, currentPrice := purchasePrice }] }

/-- The portfolio state after an `addStock` call: the source mutates the
portfolio only in the success branch; every early return leaves it
untouched. -/
def addStockState (p : Portfolio) (symbol : String) (shares purchasePrice : ℚ)
    (purchaseDate : String) : Portfolio :=
  match addStock p symbol shares purchasePrice purchaseDate with
  | .ok p' => p'
  | .error _ => p

/-- Lookup in the symbol-to-price map returned by the quotes endpoint
(the JavaScript test `prices[h.symbol] !== undefined`). -/
def lookupPrice : List (String × ℚ) → String → Option ℚ
  | [], _ => none
  | (s, q) :: rest, sym => if s = sym then some q else lookupPrice rest sym

/-- Per-holding price merge from `fetchRealTimePrices` (localStorage
variant lines 370-374, frontend/src/App.js lines 225-227): overwrite
`currentPrice` when the symbol is in the map, else leave the holding
alone. -/
def updateHoldingPrice (prices : List (String × ℚ)) (h : Holding) : Holding :=
  match lookupPrice prices h.symbol with
  | some price => { h with currentPrice := price }
  | none => h

/-- Price merge over one portfolio's holdings. -/
def reconcileHoldings (prices : List (String × ℚ)) (hs : List Holding) : List Holding :=
  hs.map (updateHoldingPrice prices)

/-- Price merge over every portfolio (the source iterates
`Object.values(this.portfolios)`). -/
def reconcilePortfolios (prices : List (String × ℚ)) (ps : List Portfolio) : List Portfolio :=
  ps.map (fun p => { p with holdings := reconcileHoldings prices p.holdings })

/-- `Set.add` on the symbol accumulator: JavaScript `Set` keeps the
first insertion and preserves insertion order. -/
def addSymbol (acc : List String) (s : String) : List String :=
  if s ∈ acc then acc else acc ++ [s]

/-- Symbol collection of `fetchRealTimePrices` (localStorage variant
lines 353-356): every holding of every portfolio feeds the set. -/
def collectSymbols (ps : List Portfolio) : List String :=
  ps.foldl (fun acc p => p.holdings.foldl (fun a h => addSymbol a h.symbol) acc) []

/-- Observable outcome of one `fetchRealTimePrices` pass: the resulting
portfolios, whether the external quote endpoint was called, and the
reported failure (the `catch` block's `console.error`), if any. -/
structure FetchOutcome where
  portfolios : List Portfolio
  calledExternal : Bool
  failure : Option String
deriving DecidableEq

/-- `fetchRealTimePrices()` from the localStorage variant lines 352-390
(frontend/src/App.js lines 218-236 differs only in iterating a flat
holdings map): collect symbols, return early when empty, otherwise call
the external source; on success merge the returned prices, on failure
(network error or non-ok response, both thrown) change nothing and
report.  The external call is abstracted as its result. -/
def fetchRealTimePrices (ps : List Portfolio)
    (source : Except String (List (String × ℚ))) : FetchOutcome :=
  let allSymbols := collectSymbols ps
  if allSymbols.isEmpty then { portfolios := ps, calledExternal := false, failure := none }
  else
    match source with
    | .ok prices =>
        { portfolios := reconcilePortfolios prices ps, calledExternal := true, failure := none }
    | .error e => { portfolios := ps, calledExternal := true, failure := some e }

/-- The interval scheduler of `startPriceUpdates` (lines 342-347):
`setInterval` keeps firing regardless of an individual tick's failure,
because `fetchRealTimePrices` catches its own errors.  Modelled as the
sequential fold of tick outcomes over the store. -/
def runTicks (ps : List Portfolio)
    (sources : List (Except String (List (String × ℚ)))) : List Portfolio :=
  sources.foldl (fun st src => (fetchRealTimePrices st src).portfolios) ps

/-- Application state for portfolio management: the portfolios in
insertion order (JavaScript object keys preserve it; the server loads
them ordered by creation time) and the active portfolio id. -/
structure AppState where
  portfolios : List Portfolio
  currentPortfolioId : Option String
deriving DecidableEq

/-- Errors of `deletePortfolio`: silently returning when no portfolio is
selected, and the cannot-delete-last-portfolio rejection. -/
inductive DeleteError where
  | noPortfolioSelected
  | lastPortfolioError
deriving DecidableEq

/-- `getCurrentPortfolio()`: key lookup
`this.portfolios[this.currentPortfolioId] || null`. -/
def getCurrentPortfolio (st : AppState) : Option Portfolio :=
  match st.currentPortfolioId with
  | none => none
  | some pid => st.portfolios.find? (fun p => p.id == pid)

/-- `deletePortfolio()` from frontend/src/App.js lines 332-351 and the
localStorage variant lines 490-506: bail out when no portfolio is
selected; reject when only one portfolio exists; otherwise remove the
current portfolio (key deletion, which cascades to its nested holdings)
and activate `Object.keys(this.portfolios)[0]`, the first remaining
portfolio in insertion order. -/
def deletePortfolio (st : AppState) : Except DeleteError AppState :=
  match st.currentPortfolioId with
  | none => .error .noPortfolioSelected
  | some pid =>
    match st.portfolios.find? (fun p => p.id == pid) with
    | none => .error .noPortfolioSelected
    | some _ =>
      if st.portfolios.length ≤ 1 then .error .lastPortfolioError
      else
        let remaining := st.portfolios.filter (fun q => !(q.id == pid))
        .ok { portfolios := remaining, currentPortfolioId := remaining.head?.map Portfolio.id }

/-- The application state after a `deletePortfolio` call: every early
return leaves the state untouched. -/
def deletePortfolioState (st : AppState) : AppState :=
  match deletePortfolio st with
  | .ok st' => st'
  | .error _ => st

/-- Leading-whitespace skip of JavaScript `parseFloat`. -/
def skipWs : List Char → List Char
  | [] => []
  | c :: rest =>
    if c == ' ' || c == '\t' || c == '\n' || c == '\r' then skipWs rest
    else c :: rest

/-- Value of one decimal digit character. -/
def digitVal (c : Char) : ℕ := c.toNat - '0'.toNat

/-- Value of a decimal digit string. -/
def digitsToNat (cs : List Char) : ℕ :=
  cs.foldl (fun acc c => 10 * acc + digitVal c) 0

/-- Powers of ten as rationals. -/
def pow10 : ℕ → ℚ
  | 0 => 1
  | n + 1 => 10 * pow10 n

/-- Exponent digits after an optional sign: `(negative, magnitude)`.
A malformed exponent contributes magnitude 0, which matches JavaScript
`parseFloat` stopping before the `e` (the parsed value is the same). -/
def parseExpDigits (cs : List Char) : Bool × ℕ :=
  match cs with
  | '+' :: rest => (false, digitsToNat (rest.takeWhile Char.isDigit))
  | '-' :: rest => (true, digitsToNat (rest.takeWhile Char.isDigit))
  | rest => (false, digitsToNat (rest.takeWhile Char.isDigit))

/-- Optional exponent part `e`/`E` with signed digits. -/
def parseExponent (cs : List Char) : Bool × ℕ :=
  match cs with
  | 'e' :: rest => parseExpDigits rest
  | 'E' :: rest => parseExpDigits rest
  | _ => (false, 0)

/-- Decimal mantissa `digits [. digits]`; `none` when no digit is
present (the NaN case). Returns the value and the unconsumed rest. -/
def parseMantissa (cs : List Char) : Option (ℚ × List Char) :=
  let intPart := cs.takeWhile Char.isDigit
  let rest1 := cs.dropWhile Char.isDigit
  match rest1 with
  | '.' :: rest2 =>
    let fracPart := rest2.takeWhile Char.isDigit
    if intPart.isEmpty && fracPart.isEmpty then none
    else
      some ((digitsToNat intPart : ℚ) + (digitsToNat fracPart : ℚ) / pow10 fracPart.length,
        rest2.dropWhile Char.isDigit)
  | _ => if intPart.isEmpty then none else some ((digitsToNat intPart : ℚ), rest1)

/-- Unsigned part of `parseFloat` after the optional sign: the
`Infinity` literal or a decimal mantissa with optional exponent. -/
def parseFloatUnsigned (cs : List Char) (neg : Bool) : JNum :=
  if ['I', 'n', 'f', 'i', 'n', 'i', 't', 'y'].isPrefixOf cs then
    (if neg then .ninf else .inf)
  else
    match parseMantissa cs with
    | none => .nan
    | some (m, rest) =>
      let e := parseExponent rest
      let v := if e.1 then m / pow10 e.2 else m * pow10 e.2
      .num (if neg then -v else v)

/-- JavaScript `parseFloat` on a character list: skip whitespace, read
an optional sign, then the unsigned part; the longest valid prefix is
parsed and trailing garbage is ignored.  Exact rational semantics:
binary-float rounding and overflow to Infinity are not modelled, the
`Infinity` literal is. -/
def parseFloatChars (cs0 : List Char) : JNum :=
  match skipWs cs0 with
  | '+' :: rest => parseFloatUnsigned rest false
  | '-' :: rest => parseFloatUnsigned rest true
  | rest => parseFloatUnsigned rest false

/-- `parseFloat(quote.last)` from backend/server.js: a missing `last`
field (undefined) parses to NaN. -/
def parseFloatJ : Option String → JNum
  | none => .nan
  | some s => parseFloatChars s.toList

/-- One upstream quote as the backend reads it: `quote.instrument?.symbol`
(absent when `instrument` or its `symbol` is missing) and `quote.last`. -/
structure UpstreamQuote where
  instrumentSymbol : Option String
  last : Option String
deriving DecidableEq

/-- JavaScript object assignment `prices[sym] = v`: overwrite an
existing key in place, otherwise append. -/
def setPrice : List (String × JNum) → String → JNum → List (String × JNum)
  | [], sym, v => [(sym, v)]
  | (s, w) :: rest, sym, v =>
    if s = sym then (s, v) :: rest else (s, w) :: setPrice rest sym v

/-- Body of the `quotes.forEach` callback in backend/server.js lines
337-345: parse `quote.last`, and store the price only when the
instrument symbol is truthy and the parsed price is not NaN. -/
def quoteStep (prices : List (String × JNum)) (q : UpstreamQuote) : List (String × JNum) :=
  match q.instrumentSymbol with
  | some s =>
    if s ≠ "" ∧ parseFloatJ q.last ≠ JNum.nan then setPrice prices s (parseFloatJ q.last)
    else prices
  | none => prices

/-- The `prices` mapping built by the `/api/quotes` handler
(backend/server.js lines 130-144 and 337-346). -/
def quotesToPrices (quotes : List UpstreamQuote) : List (String × JNum) :=
  quotes.foldl quoteStep []

/-- Sample holding used by concrete witnesses. -/
def sampleHolding : Holding :=
  { symbol := "AAPL", shares := 50, purchasePrice := 4, purchaseDate := "2024-01-15", currentPrice := 5 }

/-- Zero-cost holding: purchase price zero, positive current price. -/
def zeroCostHolding : Holding :=
  { symbol := "GIFT", shares := 1, purchasePrice := 0, purchaseDate := "2024-01-01", currentPrice := 10 }

/-- Sample empty portfolio. -/
def samplePortfolio : Portfolio := { id := "p1", name := "My First Portfolio", holdings := [] }

/-- Sample portfolio already holding AAPL. -/
def dupPortfolio : Portfolio :=
  { id := "p2", name := "Dup", holdings := [{ symbol := "AAPL", shares := 1, purchasePrice := 2, purchaseDate := "2024-01-01", currentPrice := 2 }] }

/-- Sample portfolio A with one holding. -/
def portfolioA : Portfolio := { id := "p1", name := "A", holdings := [sampleHolding] }

/-- Sample empty portfolio B. -/
def portfolioB : Portfolio := { id := "p2", name := "B", holdings := [] }

/-- State with a single portfolio. -/
def oneState : AppState := { portfolios := [portfolioA], currentPortfolioId := some "p1" }

/-- State with two portfolios, the first one active. -/
def twoState : AppState := { portfolios := [portfolioA, portfolioB], currentPortfolioId := some "p1" }

/-- Sample portfolio list with one nonempty portfolio. -/
def samplePortfolios : List Portfolio := [portfolioA]

/-- Sample portfolio list whose portfolios all have no holdings. -/
def emptyHoldingsPortfolios : List Portfolio := [{ id := "p9", name := "E", holdings := [] }]

/-- Upstream quote with a parsable decimal price. -/
def goodQuote : UpstreamQuote := { instrumentSymbol := some "AAPL", last := some "12.5" }

/-- Upstream quote whose `last` field is the string `Infinity`. -/
def infinityQuote : UpstreamQuote := { instrumentSymbol := some "AAPL", last := some "Infinity" }

/-! ## Helper lemmas -/

theorem foldl_valueCost (hs : List Holding) : ∀ a b : ℚ,
    hs.foldl (fun acc h => (acc.1 + h.shares * h.currentPrice, acc.2 + h.shares * h.purchasePrice)) (a, b)
      = (a + (hs.map (fun h => h.shares * h.currentPrice)).sum,
         b + (hs.map (fun h => h.shares * h.purchasePrice)).sum) := by
  induction hs with
  | nil => intro a b; simp
  | cons h t ih => intro a b; simp [ih, add_assoc]

/-! ## Claim theorems -/

/-- C6: for every portfolio, `calculatePortfolioTotals` returns
`totalValue` equal to the sum of shares times currentPrice over its
holdings, `totalGainLoss` equal to `totalValue` minus the summed cost,
and `totalGainLossPercent` obtained by the zero-guarded percentage rule
with the summed cost as denominator. -/
theorem portfolioTotals_spec (p : Portfolio) :
    (calculatePortfolioTotals p).totalValue = (p.holdings.map (fun h => h.shares * h.currentPrice)).sum
    ∧ (calculatePortfolioTotals p).totalGainLoss =
        (p.holdings.map (fun h => h.shares * h.currentPrice)).sum
          - (p.holdings.map (fun h => h.shares * h.purchasePrice)).sum
    ∧ (calculatePortfolioTotals p).totalGainLossPercent =
        specGainLossPercentRule ((calculatePortfolioTotals p).totalGainLoss)
          ((p.holdings.map (fun h => h.shares * h.purchasePrice)).sum) := by
  have hfold := foldl_valueCost p.holdings 0 0
  simp only [zero_add] at hfold
  refine ⟨?_, ?_, ?_⟩ <;>
    simp only [calculatePortfolioTotals, hfold, specGainLossPercentRule]

/-- C1 (amended): `calculateHoldingMetrics` returns
`marketValue = shares * currentPrice`,
`gainLoss = marketValue - shares * purchasePrice`, and the zero-guarded
percentage (hence 0 whenever `purchasePrice = 0`); the legacy inline
computation of `createTableRow` matches the guarded rule only when the
cost basis `shares * purchasePrice` is positive, because it divides
without a zero guard. -/
theorem holdingMetrics_amended (h : Holding) :
    ((calculateHoldingMetrics h).marketValue = h.shares * h.currentPrice
      ∧ (calculateHoldingMetrics h).totalGainLoss
          = h.shares * h.currentPrice - h.shares * h.purchasePrice
      ∧ (calculateHoldingMetrics h).gainLossPercent
          = specGainLossPercentRule ((calculateHoldingMetrics h).totalGainLoss)
              (h.shares * h.purchasePrice)
      ∧ (h.purchasePrice = 0 → (calculateHoldingMetrics h).gainLossPercent = 0))
    ∧ (0 < h.shares * h.purchasePrice →
        (createTableRowMetrics h).gainLossPercent
          = JNum.num (specGainLossPercentRule ((createTableRowMetrics h).totalGainLoss)
              (h.shares * h.purchasePrice))) := by
  constructor
  · refine ⟨rfl, rfl, rfl, ?_⟩
    intro hp
    simp [calculateHoldingMetrics, hp]
  · intro hc
    simp [createTableRowMetrics, jdiv, jmul100, specGainLossPercentRule, hc, hc.ne']

/-- C1 (counterexample): on a holding with purchase price 0 and current
price 10, the inline metric computation of `createTableRow` (src/app.js)
yields `Infinity` as the gain/loss percentage, not 0: the claim's
zero-guard does not hold for that computation and a division by zero
does occur. -/
theorem createTableRow_zero_cost_cex :
    (createTableRowMetrics zeroCostHolding).gainLossPercent = JNum.inf
    ∧ JNum.inf ≠ JNum.num 0 := by
  constructor
  · norm_num [createTableRowMetrics, zeroCostHolding, jdiv, jmul100]
  · intro hcontra
    exact JNum.noConfusion hcontra

/-- C1 witness: the guarded percentage is 0 on the zero-cost holding,
and on a positive-cost holding the legacy computation agrees with the
guarded rule. -/
theorem holdingMetrics_amended_witness :
    (calculateHoldingMetrics zeroCostHolding).gainLossPercent = 0
    ∧ (createTableRowMetrics sampleHolding).gainLossPercent
        = JNum.num (specGainLossPercentRule ((createTableRowMetrics sampleHolding).totalGainLoss)
            (sampleHolding.shares * sampleHolding.purchasePrice)) :=
  ⟨(holdingMetrics_amended zeroCostHolding).1.2.2.2 rfl,
   (holdingMetrics_amended sampleHolding).2 (by norm_num [sampleHolding])⟩

/-- C2 (counterexample): an input with a format-valid symbol, positive
shares, purchase price exactly 0 and a present date is rejected with a
validation error — the claim says such an input succeeds
(purchasePrice = 0 permitted), but the source's falsy check
`!purchasePrice` (and the explicit `purchasePrice <= 0` check of
src/app.js) rejects zero. -/
theorem addStock_zero_price_cex :
    symbolFormatValid "AAPL" = true
    ∧ (0 : ℚ) ≤ 1 ∧ ¬ (1 : ℚ) ≤ 0 ∧ ("2024-01-01" : String) ≠ ""
    ∧ addStock samplePortfolio "AAPL" 1 0 "2024-01-01" = Except.error StoreError.validationError := by
  refine ⟨by decide, by norm_num, by norm_num, by decide, ?_⟩
  unfold addStock
  rw [if_pos]
  exact Or.inr (Or.inr (Or.inl rfl))

/-- C2 (amended): `addStock` succeeds for every input with a
format-valid symbol, shares > 0, purchasePrice > 0 (zero purchase price
is rejected by the falsy input check), a present date and no duplicate
symbol, appending a holding whose currentPrice equals its purchasePrice;
for every input with shares ≤ 0, purchasePrice ≤ 0 or a missing date it
fails with a validation error and the store is unchanged. -/
theorem addStock_amended (p : Portfolio) (sym : String) (sh pp : ℚ) (d : String) :
    ((sh ≤ 0 ∨ pp ≤ 0 ∨ d = "") →
      addStock p sym sh pp d = Except.error StoreError.validationError
      ∧ addStockState p sym sh pp d = p)
    ∧ (symbolFormatValid sym = true → 0 < sh → 0 < pp → d ≠ "" →
        (∀ h ∈ p.holdings, h.symbol ≠ sym) →
        addStock p sym sh pp d = Except.ok { p with holdings := p.holdings ++
          [{ symbol := sym, shares := sh, purchasePrice := pp,
             purchaseDate := d, currentPrice := pp }] }) := by
  constructor
  · intro hfail
    have hcond : sym = "" ∨ sh = 0 ∨ pp = 0 ∨ d = "" ∨ sh ≤ 0 ∨ pp < 0 := by
      rcases hfail with h | h | h
      · exact Or.inr (Or.inr (Or.inr (Or.inr (Or.inl h))))
      · rcases lt_or_eq_of_le h with h' | h'
        · exact Or.inr (Or.inr (Or.inr (Or.inr (Or.inr h'))))
        · exact Or.inr (Or.inr (Or.inl h'))
      · exact Or.inr (Or.inr (Or.inr (Or.inl h)))
    constructor
    · unfold addStock
      rw [if_pos hcond]
    · unfold addStockState addStock
      rw [if_pos hcond]
  · intro hsymb hsh hpp hd hnodup
    have hsym : sym ≠ "" := by
      intro h0
      rw [h0] at hsymb
      simp [symbolFormatValid] at hsymb
    have hcond : ¬ (sym = "" ∨ sh = 0 ∨ pp = 0 ∨ d = "" ∨ sh ≤ 0 ∨ pp < 0) := by
      rintro (h | h | h | h | h | h)
      · exact hsym h
      · exact hsh.ne' h
      · exact hpp.ne' h
      · exact hd h
      · exact absurd hsh (not_lt.mpr h)
      · exact absurd h (not_lt.mpr hpp.le)
    have hany : ¬ (p.holdings.any (fun h => h.symbol == sym)) = true := by
      intro hA
      obtain ⟨h0, hm, hb⟩ := List.any_eq_true.mp hA
      exact hnodup h0 hm (by simpa using hb)
    unfold addStock
    rw [if_neg hcond, if_neg hany]

/-- C2 witness: a concrete valid input succeeds with the appended
holding, and a concrete zero-price input is rejected with the store
unchanged. -/
theorem addStock_amended_witness :
    addStock samplePortfolio "MSFT" 2 3 "2024-01-02" = Except.ok { samplePortfolio with
      holdings := samplePortfolio.holdings ++
        [{ symbol := "MSFT", shares := 2, purchasePrice := 3,
           purchaseDate := "2024-01-02", currentPrice := 3 }] }
    ∧ addStockState samplePortfolio "GOOG" 1 0 "2024-01-02" = samplePortfolio :=
  ⟨(addStock_amended samplePortfolio "MSFT" 2 3 "2024-01-02").2 (by decide) (by norm_num)
      (by norm_num) (by decide) (by simp [samplePortfolio]),
   ((addStock_amended samplePortfolio "GOOG" 1 0 "2024-01-02").1 (Or.inr (Or.inl le_rfl))).2⟩

/-- C3: for every portfolio and every input whose symbol already occurs
in that portfolio, `addStock` never succeeds and leaves the portfolio
(hence its holdings, in length and contents) unchanged; when the input
passes validation, the reported error is the duplicate-symbol error. -/
theorem addStock_duplicate_spec (p : Portfolio) (sym : String) (sh pp : ℚ) (d : String)
    (h0 : Holding) (hmem : h0 ∈ p.holdings) (hsym0 : h0.symbol = sym) :
    (addStockState p sym sh pp d = p
      ∧ ∀ p', addStock p sym sh pp d ≠ Except.ok p')
    ∧ (sym ≠ "" → 0 < sh → 0 < pp → d ≠ "" →
        addStock p sym sh pp d = Except.error StoreError.duplicateSymbolError) := by
  have hany : (p.holdings.any (fun h => h.symbol == sym)) = true :=
    List.any_eq_true.mpr ⟨h0, hmem, by simp [hsym0]⟩
  by_cases hval : sym = "" ∨ sh = 0 ∨ pp = 0 ∨ d = "" ∨ sh ≤ 0 ∨ pp < 0
  · refine ⟨⟨?_, ?_⟩, ?_⟩
    · unfold addStockState addStock
      rw [if_pos hval]
    · intro p' hok
      unfold addStock at hok
      rw [if_pos hval] at hok
      exact Except.noConfusion hok
    · intro hsym hsh hpp hd
      exfalso
      rcases hval with h | h | h | h | h | h
      · exact hsym h
      · exact hsh.ne' h
      · exact hpp.ne' h
      · exact hd h
      · exact absurd hsh (not_lt.mpr h)
      · exact absurd h (not_lt.mpr hpp.le)
  · refine ⟨⟨?_, ?_⟩, ?_⟩
    · unfold addStockState addStock
      rw [if_neg hval, if_pos hany]
    · intro p' hok
      unfold addStock at hok
      rw [if_neg hval, if_pos hany] at hok
      exact Except.noConfusion hok
    · intro _ _ _ _
      unfold addStock
      rw [if_neg hval, if_pos hany]

/-- C3 witness: re-adding AAPL to a portfolio that already holds AAPL
leaves the state unchanged and reports the duplicate-symbol error. -/
theorem addStock_duplicate_witness :
    addStockState dupPortfolio "AAPL" 1 2 "2024-01-03" = dupPortfolio
    ∧ addStock dupPortfolio "AAPL" 1 2 "2024-01-03" = Except.error StoreError.duplicateSymbolError :=
  ⟨(addStock_duplicate_spec dupPortfolio "AAPL" 1 2 "2024-01-03"
      { symbol := "AAPL", shares := 1, purchasePrice := 2, purchaseDate := "2024-01-01", currentPrice := 2 }
      (by simp [dupPortfolio]) rfl).1.1,
   (addStock_duplicate_spec dupPortfolio "AAPL" 1 2 "2024-01-03"
      { symbol := "AAPL", shares := 1, purchasePrice := 2, purchaseDate := "2024-01-01", currentPrice := 2 }
      (by simp [dupPortfolio]) rfl).2 (by decide) (by norm_num) (by norm_num) (by decide)⟩

theorem forall2_map {α β : Type} (f : α → β) (R : α → β → Prop) (hR : ∀ a, R a (f a)) :
    ∀ l : List α, List.Forall₂ R l (l.map f) := by
  intro l
  induction l with
  | nil => exact List.Forall₂.nil
  | cons a t ih => exact List.Forall₂.cons (hR a) ih

/-- C4: in a reconciliation pass, a holding whose symbol is in the price
map gets exactly the mapped value as its new currentPrice, a holding
whose symbol is absent is returned unchanged, shares / purchasePrice /
purchaseDate are never touched, and the full pass rewrites every holding
of every portfolio by exactly this per-holding update. -/
theorem reconcile_frame_spec (prices : List (String × ℚ)) (h : Holding) :
    ((∀ pr, lookupPrice prices h.symbol = some pr →
        updateHoldingPrice prices h = { h with currentPrice := pr })
      ∧ (lookupPrice prices h.symbol = none → updateHoldingPrice prices h = h)
      ∧ (updateHoldingPrice prices h).symbol = h.symbol
      ∧ (updateHoldingPrice prices h).shares = h.shares
      ∧ (updateHoldingPrice prices h).purchasePrice = h.purchasePrice
      ∧ (updateHoldingPrice prices h).purchaseDate = h.purchaseDate)
    ∧ ∀ ps : List Portfolio,
        List.Forall₂ (fun p p' => p'.id = p.id ∧ p'.name = p.name
            ∧ List.Forall₂ (fun h0 h0' => h0' = updateHoldingPrice prices h0) p.holdings p'.holdings)
          ps (reconcilePortfolios prices ps) := by
  constructor
  · cases hl : lookupPrice prices h.symbol with
    | none =>
      refine ⟨?_, ?_, ?_, ?_, ?_, ?_⟩
      · intro pr hpr
        exact Option.noConfusion hpr
      · intro _
        simp [updateHoldingPrice, hl]
      · simp [updateHoldingPrice, hl]
      · simp [updateHoldingPrice, hl]
      · simp [updateHoldingPrice, hl]
      · simp [updateHoldingPrice, hl]
    | some pr0 =>
      refine ⟨?_, ?_, ?_, ?_, ?_, ?_⟩
      · intro pr hpr
        injection hpr with hpr1
        subst hpr1
        simp [updateHoldingPrice, hl]
      · intro hnone
        exact Option.noConfusion hnone
      · simp [updateHoldingPrice, hl]
      · simp [updateHoldingPrice, hl]
      · simp [updateHoldingPrice, hl]
      · simp [updateHoldingPrice, hl]
  · intro ps
    simp only [reconcilePortfolios, reconcileHoldings]
    exact forall2_map
      (fun p : Portfolio => { p with holdings := List.map (updateHoldingPrice prices) p.holdings })
      (fun (p p' : Portfolio) => p'.id = p.id ∧ p'.name = p.name
        ∧ List.Forall₂ (fun h0 h0' => h0' = updateHoldingPrice prices h0) p.holdings p'.holdings)
      (fun p => ⟨rfl, rfl,
        forall2_map (updateHoldingPrice prices)
          (fun h0 h0' => h0' = updateHoldingPrice prices h0) (fun h0 => rfl) p.holdings⟩) ps

/-- C4 witness: with the price map sending AAPL to 7, the AAPL holding's
currentPrice becomes 7; with an empty map the holding is unchanged. -/
theorem reconcile_frame_witness :
    updateHoldingPrice [("AAPL", 7)] sampleHolding = { sampleHolding with currentPrice := 7 }
    ∧ updateHoldingPrice [] sampleHolding = sampleHolding :=
  ⟨(reconcile_frame_spec [("AAPL", 7)] sampleHolding).1.1 7 rfl,
   (reconcile_frame_spec [] sampleHolding).1.2.1 rfl⟩

/-- C5: when the external price source call fails, the reconciler leaves
every portfolio (hence every holding's currentPrice) untouched, reports
the failure whenever a call was actually due, and the scheduler's
subsequent ticks run exactly as if the failing tick had not happened. -/
theorem fetch_failure_spec (ps : List Portfolio) (e : String)
    (rest : List (Except String (List (String × ℚ)))) :
    (fetchRealTimePrices ps (Except.error e)).portfolios = ps
    ∧ (collectSymbols ps ≠ [] →
        fetchRealTimePrices ps (Except.error e)
          = { portfolios := ps, calledExternal := true, failure := some e })
    ∧ runTicks ps (Except.error e :: rest) = runTicks ps rest := by
  have hports : (fetchRealTimePrices ps (Except.error e)).portfolios = ps := by
    cases hE : (collectSymbols ps).isEmpty <;> simp [fetchRealTimePrices, hE]
  refine ⟨hports, ?_, ?_⟩
  · intro hne
    have hE : (collectSymbols ps).isEmpty = false := by
      cases hC : collectSymbols ps with
      | nil => exact absurd hC hne
      | cons a t => rfl
    simp [fetchRealTimePrices, hE]
  · have hstep : runTicks ps (Except.error e :: rest)
        = runTicks (fetchRealTimePrices ps (Except.error e)).portfolios rest := rfl
    rw [hstep, hports]

/-- C5 witness: a failing call on a nonempty store reports the failure
and returns the store unchanged. -/
theorem fetch_failure_witness :
    fetchRealTimePrices samplePortfolios (Except.error "boom")
      = { portfolios := samplePortfolios, calledExternal := true, failure := some "boom" } :=
  (fetch_failure_spec samplePortfolios "boom" []).2.1 (by decide)

theorem mem_addSymbol (acc : List String) (s x : String) :
    x ∈ addSymbol acc s ↔ x ∈ acc ∨ x = s := by
  unfold addSymbol
  by_cases hs : s ∈ acc
  · rw [if_pos hs]
    constructor
    · exact Or.inl
    · rintro (hx | rfl)
      · exact hx
      · exact hs
  · rw [if_neg hs]
    simp

theorem nodup_addSymbol (acc : List String) (s : String) (hn : acc.Nodup) :
    (addSymbol acc s).Nodup := by
  unfold addSymbol
  by_cases hs : s ∈ acc
  · rw [if_pos hs]
    exact hn
  · rw [if_neg hs]
    simp [List.nodup_append, hn, hs]

theorem mem_foldSymbols (hs : List Holding) : ∀ (acc : List String) (x : String),
    x ∈ hs.foldl (fun a h => addSymbol a h.symbol) acc ↔ x ∈ acc ∨ ∃ h ∈ hs, h.symbol = x := by
  induction hs with
  | nil => intro acc x; simp
  | cons h t ih =>
    intro acc x
    rw [List.foldl_cons, ih, mem_addSymbol]
    constructor
    · rintro ((hx | rfl) | ⟨h1, hm, he⟩)
      · exact Or.inl hx
      · exact Or.inr ⟨h, List.mem_cons_self h t, rfl⟩
      · exact Or.inr ⟨h1, List.mem_cons_of_mem h hm, he⟩
    · rintro (hx | ⟨h1, hm, he⟩)
      · exact Or.inl (Or.inl hx)
      · rcases List.mem_cons.mp hm with rfl | hm'
        · exact Or.inl (Or.inr he.symm)
        · exact Or.inr ⟨h1, hm', he⟩

theorem nodup_foldSymbols (hs : List Holding) : ∀ acc : List String,
    acc.Nodup → (hs.foldl (fun a h => addSymbol a h.symbol) acc).Nodup := by
  induction hs with
  | nil => intro acc hn; simpa using hn
  | cons h t ih =>
    intro acc hn
    rw [List.foldl_cons]
    exact ih _ (nodup_addSymbol acc h.symbol hn)

theorem mem_collectSymbols_go (ps : List Portfolio) : ∀ (acc : List String) (x : String),
    x ∈ ps.foldl (fun acc p => p.holdings.foldl (fun a h => addSymbol a h.symbol) acc) acc
      ↔ x ∈ acc ∨ ∃ p ∈ ps, ∃ h ∈ p.holdings, h.symbol = x := by
  induction ps with
  | nil => intro acc x; simp
  | cons p t ih =>
    intro acc x
    rw [List.foldl_cons, ih, mem_foldSymbols]
    constructor
    · rintro ((hx | ⟨h1, hm, he⟩) | ⟨p1, hp, h1, hm, he⟩)
      · exact Or.inl hx
      · exact Or.inr ⟨p, List.mem_cons_self p t, h1, hm, he⟩
      · exact Or.inr ⟨p1, List.mem_cons_of_mem p hp, h1, hm, he⟩
    · rintro (hx | ⟨p1, hp, h1, hm, he⟩)
      · exact Or.inl (Or.inl hx)
      · rcases List.mem_cons.mp hp with rfl | hp'
        · exact Or.inl (Or.inr ⟨h1, hm, he⟩)
        · exact Or.inr ⟨p1, hp', h1, hm, he⟩

theorem nodup_collectSymbols_go (ps : List Portfolio) : ∀ acc : List String,
    acc.Nodup →
    (ps.foldl (fun acc p => p.holdings.foldl (fun a h => addSymbol a h.symbol) acc) acc).Nodup := by
  induction ps with
  | nil => intro acc hn; simpa using hn
  | cons p t ih =>
    intro acc hn
    rw [List.foldl_cons]
    exact ih _ (nodup_foldSymbols p.holdings acc hn)

/-- C7: the symbol list sent to the external source has no duplicates
and contains exactly the symbols occurring in some holding of some
portfolio; when no holdings exist anywhere, the pass returns the store
unchanged without calling the external source. -/
theorem collectSymbols_spec (ps : List Portfolio) :
    (collectSymbols ps).Nodup
    ∧ (∀ s, s ∈ collectSymbols ps ↔ ∃ p ∈ ps, ∃ h ∈ p.holdings, h.symbol = s)
    ∧ ((∀ p ∈ ps, p.holdings = []) →
        ∀ src, fetchRealTimePrices ps src
          = { portfolios := ps, calledExternal := false, failure := none }) := by
  refine ⟨?_, ?_, ?_⟩
  · exact nodup_collectSymbols_go ps [] List.nodup_nil
  · intro s
    unfold collectSymbols
    rw [mem_collectSymbols_go]
    simp
  · intro hempty src
    have hnil : collectSymbols ps = [] := by
      rw [List.eq_nil_iff_forall_not_mem]
      intro s hmem
      unfold collectSymbols at hmem
      rw [mem_collectSymbols_go] at hmem
      rcases hmem with h | ⟨p1, hp, h1, hm, _⟩
      · simp at h
      · rw [hempty p1 hp] at hm
        simp at hm
    simp [fetchRealTimePrices, hnil]

/-- C7 witness: a store whose portfolios have no holdings yields a
no-call no-op pass, and AAPL is collected from the sample store. -/
theorem collectSymbols_witness :
    fetchRealTimePrices emptyHoldingsPortfolios (Except.error "x")
      = { portfolios := emptyHoldingsPortfolios, calledExternal := false, failure := none }
    ∧ "AAPL" ∈ collectSymbols samplePortfolios :=
  ⟨(collectSymbols_spec emptyHoldingsPortfolios).2.2
      (by simp [emptyHoldingsPortfolios]) (Except.error "x"),
   ((collectSymbols_spec samplePortfolios).2.1 "AAPL").mpr
     ⟨portfolioA, by simp [samplePortfolios], sampleHolding, by simp [portfolioA], rfl⟩⟩

/-- C8: with the active portfolio resolved, deleting when it is the sole
portfolio fails with the last-portfolio error and changes no state; with
at least two portfolios (whose ids are unique, as JavaScript object keys
are), deletion succeeds, removes exactly the active portfolio together
with its nested holdings, and activates the first remaining portfolio in
creation order. -/
theorem deletePortfolio_spec (st : AppState) (pid : String) (p : Portfolio)
    (hcur : st.currentPortfolioId = some pid)
    (hfind : st.portfolios.find? (fun q => q.id == pid) = some p) :
    (st.portfolios.length = 1 →
      deletePortfolio st = Except.error DeleteError.lastPortfolioError
      ∧ deletePortfolioState st = st)
    ∧ (2 ≤ st.portfolios.length → (st.portfolios.map Portfolio.id).Nodup →
        ∃ st' q, deletePortfolio st = Except.ok st'
          ∧ st'.portfolios = st.portfolios.filter (fun r => !(r.id == pid))
          ∧ (∀ r ∈ st'.portfolios, r.id ≠ pid)
          ∧ st'.portfolios.head? = some q
          ∧ q ∈ st.portfolios
          ∧ st'.currentPortfolioId = some q.id) := by
  have hdel : deletePortfolio st =
      (if st.portfolios.length ≤ 1 then Except.error DeleteError.lastPortfolioError
       else Except.ok
         { portfolios := st.portfolios.filter (fun q => !(q.id == pid)),
           currentPortfolioId :=
             ((st.portfolios.filter (fun q => !(q.id == pid))).head?).map Portfolio.id }) := by
    unfold deletePortfolio
    simp only [hcur, hfind]
  constructor
  · intro h1
    have hle : st.portfolios.length ≤ 1 := by omega
    rw [hdel, if_pos hle]
    refine ⟨rfl, ?_⟩
    unfold deletePortfolioState
    rw [hdel, if_pos hle]
  · intro h2 hnd
    have hle : ¬ st.portfolios.length ≤ 1 := by omega
    rw [hdel, if_neg hle]
    have hne : st.portfolios.filter (fun q => !(q.id == pid)) ≠ [] := by
      intro hnil
      have hall : ∀ r ∈ st.portfolios, r.id = pid := by
        intro r hr
        by_contra hrne
        have hrf : r ∈ st.portfolios.filter (fun q => !(q.id == pid)) :=
          List.mem_filter.mpr ⟨hr, by simp [hrne]⟩
        rw [hnil] at hrf
        simp at hrf
      obtain ⟨a, b, t, hab⟩ : ∃ a b t, st.portfolios = a :: b :: t := by
        cases hps : st.portfolios with
        | nil => rw [hps] at h2; simp at h2
        | cons a t1 =>
          cases t1 with
          | nil => rw [hps] at h2; simp at h2
          | cons b t => exact ⟨a, b, t, rfl⟩
      have ha : a.id = pid := hall a (by rw [hab]; exact List.mem_cons_self a (b :: t))
      have hb : b.id = pid := hall b (by rw [hab]; exact List.mem_cons_of_mem a (List.mem_cons_self b t))
      rw [hab] at hnd
      simp only [List.map_cons, List.nodup_cons, List.mem_cons] at hnd
      exact hnd.1 (Or.inl (ha.trans hb.symm))
    obtain ⟨q, t, hq⟩ : ∃ q t, st.portfolios.filter (fun r => !(r.id == pid)) = q :: t := by
      cases hr2 : st.portfolios.filter (fun r => !(r.id == pid)) with
      | nil => exact absurd hr2 hne
      | cons q t => exact ⟨q, t, rfl⟩
    refine ⟨_, q, rfl, rfl, ?_, ?_, ?_, ?_⟩
    · intro r hr
      have hrp := (List.mem_filter.mp hr).2
      simpa using hrp
    · rw [hq]
      rfl
    · have hqmem : q ∈ st.portfolios.filter (fun r => !(r.id == pid)) := by
        rw [hq]
        exact List.mem_cons_self q t
      exact List.mem_of_mem_filter hqmem
    · rw [hq]
      rfl

/-- C8 witness: deleting the sole portfolio fails and changes nothing;
with two portfolios, deleting the active first one keeps exactly the
second and activates it. -/
theorem deletePortfolio_spec_witness :
    (deletePortfolio oneState = Except.error DeleteError.lastPortfolioError
      ∧ deletePortfolioState oneState = oneState)
    ∧ ∃ st' q, deletePortfolio twoState = Except.ok st'
        ∧ st'.portfolios = twoState.portfolios.filter (fun r => !(r.id == "p1"))
        ∧ (∀ r ∈ st'.portfolios, r.id ≠ "p1")
        ∧ st'.portfolios.head? = some q
        ∧ q ∈ twoState.portfolios
        ∧ st'.currentPortfolioId = some q.id :=
  ⟨(deletePortfolio_spec oneState "p1" portfolioA rfl rfl).1 rfl,
   (deletePortfolio_spec twoState "p1" portfolioA rfl rfl).2 (by decide) (by decide)⟩

theorem mem_setPrice : ∀ (prices : List (String × JNum)) (sym : String) (v : JNum)
    (x : String × JNum), x ∈ setPrice prices sym v → x ∈ prices ∨ x = (sym, v) := by
  intro prices
  induction prices with
  | nil =>
    intro sym v x hx
    simp [setPrice] at hx
    exact Or.inr hx
  | cons hd tl ih =>
    intro sym v x hx
    obtain ⟨s, w⟩ := hd
    by_cases hk : s = sym
    · rw [setPrice, if_pos hk] at hx
      rcases List.mem_cons.mp hx with rfl | hx'
      · subst hk
        exact Or.inr rfl
      · exact Or.inl (List.mem_cons_of_mem _ hx')
    · rw [setPrice, if_neg hk] at hx
      rcases List.mem_cons.mp hx with rfl | hx'
      · exact Or.inl (List.mem_cons_self _ _)
      · rcases ih sym v x hx' with h1 | h2
        · exact Or.inl (List.mem_cons_of_mem _ h1)
        · exact Or.inr h2

theorem quoteStep_eq_some (acc : List (String × JNum)) (q : UpstreamQuote) (s : String)
    (hqs : q.instrumentSymbol = some s) :
    quoteStep acc q = if s ≠ "" ∧ parseFloatJ q.last ≠ JNum.nan
      then setPrice acc s (parseFloatJ q.last) else acc := by
  unfold quoteStep
  simp only [hqs]

theorem quoteStep_eq_none (acc : List (String × JNum)) (q : UpstreamQuote)
    (hqs : q.instrumentSymbol = none) : quoteStep acc q = acc := by
  unfold quoteStep
  simp only [hqs]

theorem quotesToPrices_go (quotes : List UpstreamQuote) :
    ∀ (acc : List (String × JNum)) (sym : String) (v : JNum),
    (sym, v) ∈ quotes.foldl quoteStep acc →
    (sym, v) ∈ acc
    ∨ (v ≠ JNum.nan ∧ ∃ q, q ∈ quotes ∧ q.instrumentSymbol = some sym ∧ parseFloatJ q.last = v) := by
  induction quotes with
  | nil =>
    intro acc sym v h
    exact Or.inl h
  | cons q t ih =>
    intro acc sym v h
    rw [List.foldl_cons] at h
    rcases ih (quoteStep acc q) sym v h with hacc | ⟨hv, q', hq', hsym', hparse'⟩
    · cases hqs : q.instrumentSymbol with
      | none =>
        rw [quoteStep_eq_none acc q hqs] at hacc
        exact Or.inl hacc
      | some s =>
        rw [quoteStep_eq_some acc q s hqs] at hacc
        by_cases hcond : s ≠ "" ∧ parseFloatJ q.last ≠ JNum.nan
        · rw [if_pos hcond] at hacc
          rcases mem_setPrice acc s (parseFloatJ q.last) (sym, v) hacc with h1 | h2
          · exact Or.inl h1
          · have hsym : sym = s := (Prod.ext_iff.mp h2).1
            have hval : v = parseFloatJ q.last := (Prod.ext_iff.mp h2).2
            refine Or.inr ⟨?_, q, List.mem_cons_self q t, ?_, hval.symm⟩
            · rw [hval]
              exact hcond.2
            · rw [hqs, hsym]
        · rw [if_neg hcond] at hacc
          exact Or.inl hacc
    · exact Or.inr ⟨hv, q', List.mem_cons_of_mem q hq', hsym', hparse'⟩

/-- C10 (amended): every entry of the symbol-to-price mapping built by
the quotes endpoint comes from a quote that carries that instrument
symbol and whose `last` field parses to a non-NaN value, and the stored
price is exactly that parsed value (never NaN, never a substituted
zero); a quote with a missing symbol or an unparsable price contributes
no entry.  The parsed value need not be finite: an `Infinity` literal
passes the `!isNaN` guard. -/
theorem quotesToPrices_amended (quotes : List UpstreamQuote) (sym : String) (v : JNum)
    (hmem : (sym, v) ∈ quotesToPrices quotes) :
    v ≠ JNum.nan
    ∧ ∃ q, q ∈ quotes ∧ q.instrumentSymbol = some sym ∧ parseFloatJ q.last = v := by
  have hres := quotesToPrices_go quotes [] sym v hmem
  rcases hres with h | h
  · simp at h
  · exact h

/-- C10 (counterexample): an upstream quote whose `last` field is the
string `Infinity` carries a symbol and passes the backend's `!isNaN`
guard, so the mapping contains a non-finite price — refuting the claim
that every price in the returned mapping is a finite number. -/
theorem quotes_infinity_cex :
    ("AAPL", JNum.inf) ∈ quotesToPrices [infinityQuote]
    ∧ JNum.isFinite JNum.inf = false := by
  constructor
  · decide
  · rfl

theorem parse_goodQuote : parseFloatJ goodQuote.last = JNum.num (25 / 2) := by
  have h1 : parseFloatJ goodQuote.last
      = JNum.num (((digitsToNat ['1', '2'] : ℚ) + (digitsToNat ['5'] : ℚ) / pow10 1) * pow10 0) := rfl
  have h2 : digitsToNat ['1', '2'] = 12 := rfl
  have h3 : digitsToNat ['5'] = 5 := rfl
  rw [h1, h2, h3]
  norm_num [pow10]

/-- C10 witness: the mapping for a quote with symbol AAPL and last
`12.5` contains the parsed price 25/2, which traces back to that
quote. -/
theorem quotesToPrices_amended_witness :
    JNum.num (25 / 2) ≠ JNum.nan
    ∧ ∃ q, q ∈ [goodQuote] ∧ q.instrumentSymbol = some "AAPL"
        ∧ parseFloatJ q.last = JNum.num (25 / 2) :=
  quotesToPrices_amended [goodQuote] "AAPL" (JNum.num (25 / 2))
    (by
      have hq : quotesToPrices [goodQuote] = [("AAPL", JNum.num (25 / 2))] := by
        show quoteStep [] goodQuote = _
        rw [quoteStep_eq_some [] goodQuote "AAPL" rfl, parse_goodQuote,
          if_pos ⟨by decide, by decide⟩]
        rfl
      rw [hq]
      exact List.mem_singleton.mpr rfl)
